import Mathlib

/-
  Verification development for the orbit-camera core of the `palimpsest`
  repository (src/camera/pan_orbit_camera.rs).  Scalars of the source
  (f32) are idealised as real numbers; the vector/quaternion primitives
  of the math dependency (glam, as re-exported by bevy) are embedded by
  their scalar formulas.  Per-frame ECS systems become pure functions on
  an explicit camera/transform state, with the events of a frame passed as
  lists.
-/

noncomputable section

namespace Palimpsest

/-- Planar vector (glam `Vec2`), components idealised as reals. -/
structure Vec2 where
  x : ℝ
  y : ℝ

/-- Constant `Vec2::ZERO`. -/
def Vec2.ZERO : Vec2 := ⟨0, 0⟩

/-- Componentwise addition of 2D vectors. -/
def Vec2.add (a b : Vec2) : Vec2 := ⟨a.x + b.x, a.y + b.y⟩

/-- Spatial vector (glam `Vec3`). -/
structure Vec3 where
  x : ℝ
  y : ℝ
  z : ℝ

/-- Constant `Vec3::ZERO`. -/
def Vec3.ZERO : Vec3 := ⟨0, 0, 0⟩

/-- Constant `Vec3::X`, the unit X axis. -/
def Vec3.X : Vec3 := ⟨1, 0, 0⟩

/-- Constant `Vec3::Y`, the unit Y (vertical) axis. -/
def Vec3.Y : Vec3 := ⟨0, 1, 0⟩

/-- Componentwise addition of 3D vectors. -/
def Vec3.add (a b : Vec3) : Vec3 := ⟨a.x + b.x, a.y + b.y, a.z + b.z⟩

/-- Componentwise subtraction of 3D vectors. -/
def Vec3.sub (a b : Vec3) : Vec3 := ⟨a.x - b.x, a.y - b.y, a.z - b.z⟩

/-- Componentwise negation (the `-Vec3::X` of the source). -/
def Vec3.neg (a : Vec3) : Vec3 := ⟨-a.x, -a.y, -a.z⟩

/-- Scalar multiplication of a 3D vector. -/
def Vec3.smul (a : Vec3) (k : ℝ) : Vec3 := ⟨a.x * k, a.y * k, a.z * k⟩

/-- Dot product. -/
def Vec3.dot (a b : Vec3) : ℝ := a.x * b.x + a.y * b.y + a.z * b.z

/-- Cross product. -/
def Vec3.cross (a b : Vec3) : Vec3 :=
  ⟨a.y * b.z - a.z * b.y, a.z * b.x - a.x * b.z, a.x * b.y - a.y * b.x⟩

/-- Euclidean length of a 3D vector. -/
def Vec3.length (a : Vec3) : ℝ := Real.sqrt (a.dot a)

/-- Distance between two points. -/
def Vec3.dist (a b : Vec3) : ℝ := (a.sub b).length

/-- glam `Vec3::normalize`: multiply by the inverse square root of the
squared length. -/
def Vec3.normalize (a : Vec3) : Vec3 := a.smul (Real.sqrt (a.dot a))⁻¹

/-- Quaternion (glam `Quat`), stored in `from_xyzw` field order. -/
structure Quat where
  x : ℝ
  y : ℝ
  z : ℝ
  w : ℝ

/-- glam `Quat::from_axis_angle`: half-angle sine on the axis, cosine as
the scalar part. -/
def Quat.fromAxisAngle (axis : Vec3) (angle : ℝ) : Quat :=
  ⟨axis.x * Real.sin (angle * 0.5), axis.y * Real.sin (angle * 0.5),
    axis.z * Real.sin (angle * 0.5), Real.cos (angle * 0.5)⟩

/-- Hamilton product of quaternions (glam `Quat::mul_quat`). -/
def Quat.mul (a b : Quat) : Quat :=
  ⟨a.w * b.x + a.x * b.w + a.y * b.z - a.z * b.y,
    a.w * b.y - a.x * b.z + a.y * b.w + a.z * b.x,
    a.w * b.z + a.x * b.y - a.y * b.x + a.z * b.w,
    a.w * b.w - a.x * b.x - a.y * b.y - a.z * b.z⟩

/-- Squared norm of a quaternion. -/
def Quat.normSq (q : Quat) : ℝ := q.x * q.x + q.y * q.y + q.z * q.z + q.w * q.w

/-- glam `Quat::mul_vec3`, rotation of a vector by a (unit) quaternion:
`v * (w*w - b.b) + b * (v.b * 2) + (b × v) * (w * 2)` with `b` the vector
part. -/
def Quat.mulVec3 (q : Quat) (v : Vec3) : Vec3 :=
  ((v.smul (q.w * q.w - (Vec3.dot ⟨q.x, q.y, q.z⟩ ⟨q.x, q.y, q.z⟩))).add
      ((Vec3.smul ⟨q.x, q.y, q.z⟩ (v.dot ⟨q.x, q.y, q.z⟩ * 2)))).add
    ((Vec3.cross ⟨q.x, q.y, q.z⟩ v).smul (q.w * 2))

/-- glam `Quat::from_mat3` on the three column axes (branch on the trace
to pick the numerically dominant quaternion component). -/
def Quat.fromMat3 (xAxis yAxis zAxis : Vec3) : Quat :=
  let m00 := xAxis.x; let m01 := xAxis.y; let m02 := xAxis.z
  let m10 := yAxis.x; let m11 := yAxis.y; let m12 := yAxis.z
  let m20 := zAxis.x; let m21 := zAxis.y; let m22 := zAxis.z
  if m22 ≤ 0 then
    let dif10 := m11 - m00
    let omm22 := 1 - m22
    if dif10 ≤ 0 then
      let fourXSq := omm22 - dif10
      let inv4x := 0.5 / Real.sqrt fourXSq
      ⟨fourXSq * inv4x, (m01 + m10) * inv4x, (m02 + m20) * inv4x, (m12 - m21) * inv4x⟩
    else
      let fourYSq := omm22 + dif10
      let inv4y := 0.5 / Real.sqrt fourYSq
      ⟨(m01 + m10) * inv4y, fourYSq * inv4y, (m12 + m21) * inv4y, (m20 - m02) * inv4y⟩
  else
    let sum10 := m11 + m00
    let opm22 := 1 + m22
    if sum10 ≤ 0 then
      let fourZSq := opm22 - sum10
      let inv4z := 0.5 / Real.sqrt fourZSq
      ⟨(m02 + m20) * inv4z, (m12 + m21) * inv4z, fourZSq * inv4z, (m01 - m10) * inv4z⟩
    else
      let fourWSq := opm22 + sum10
      let inv4w := 0.5 / Real.sqrt fourWSq
      ⟨(m12 - m21) * inv4w, (m20 - m02) * inv4w, (m01 - m10) * inv4w, fourWSq * inv4w⟩

/-- bevy `Transform`, restricted to the fields the camera core touches. -/
structure Transform where
  translation : Vec3
  rotation : Quat

/-- bevy `Transform::look_at(target, up)`: build forward/right/up axes
from the current translation and convert the resulting rotation matrix
to a quaternion. -/
def Transform.look_at (t : Transform) (target up : Vec3) : Transform :=
  let forward := Vec3.normalize (t.translation.sub target)
  let right := Vec3.normalize (up.cross forward)
  let up2 := forward.cross right
  { t with rotation := Quat.fromMat3 right up2 forward }

/-- bevy `MouseButton`. -/
inductive MouseButton where
  | Left
  | Right
  | Middle
  | Other (id : Nat)
deriving DecidableEq

/-- bevy `MouseScrollUnit`. -/
inductive MouseScrollUnit where
  | Line
  | Pixel
deriving DecidableEq

/-- bevy `MouseWheel` event: a scroll unit and a vertical amount. -/
structure MouseWheelEvent where
  unit : MouseScrollUnit
  y : ℝ

/-- Event type `CameraEvents` of pan_orbit_camera.rs. -/
inductive CameraEvents where
  | Pan (delta : Vec2)
  | Orbit (delta : Vec2)
  | Zoom (distance : ℝ)

/-- Constant of pan_orbit_camera.rs converting pixel scroll to lines. -/
def LINE_TO_PIXEL_RATIO : ℝ := 0.1

/-- Component `OrbitCamera`: spherical pose (origin/pivot, polar θ,
azimuthal ϕ, radial ρ), the three inclusive ranges, sensitivities,
button bindings and the enabled flag. -/
structure OrbitCamera where
  origin : Vec3
  θ : ℝ
  ϕ : ℝ
  ρ : ℝ
  θ_range : ℝ × ℝ
  ϕ_range : ℝ × ℝ
  ρ_range : ℝ × ℝ
  rotate_sensitivity : ℝ
  pan_sensitivity : ℝ
  zoom_sensitivity : ℝ
  rotate_button : MouseButton
  pan_button : MouseButton
  enabled : Bool

/-- Constructor `OrbitCamera::default()`. -/
def OrbitCamera.default : OrbitCamera :=
  { origin := Vec3.ZERO
    θ := 0
    ϕ := Real.pi / 2
    ρ := 5
    θ_range := (0.01, Real.pi)
    ϕ_range := (0.01, Real.pi / 2)
    ρ_range := (0.01, 1000)
    rotate_sensitivity := 1
    pan_sensitivity := 1
    zoom_sensitivity := 0.8
    rotate_button := MouseButton.Left
    pan_button := MouseButton.Right
    enabled := true }

/-- Constructor `OrbitCamera::new(ρ, origin)`. -/
def OrbitCamera.new (ρ : ℝ) (origin : Vec3) : OrbitCamera :=
  { OrbitCamera.default with ρ := ρ, origin := origin }

/-- Body of `update_transform_system` for one camera: when enabled,
recompute translation from the spherical pose and look at the origin
with Y up. -/
def update_transform (camera : OrbitCamera) (transform : Transform) : Transform :=
  if camera.enabled then
    let rot := (Quat.fromAxisAngle Vec3.Y camera.θ).mul
      (Quat.fromAxisAngle (Vec3.neg Vec3.X) camera.ϕ)
    Transform.look_at
      { transform with translation := ((rot.mulVec3 Vec3.Y).smul camera.ρ).add camera.origin }
      camera.origin Vec3.Y
  else transform

/-- System `update_transform_system` for one camera, with the `Changed`
query-filter modelled as an explicit flag. -/
def update_transform_system (changed : Bool) (camera : OrbitCamera)
    (transform : Transform) : Transform :=
  if changed then update_transform camera transform else transform

/-- The events `emit_motion_events` sends for one camera given the
accumulated pointer delta of the frame and the pressed-button predicate:
`Orbit` when the rotate button is held, then `Pan` when the pan button
is held, nothing when disabled. -/
def motion_events_for (delta : Vec2) (pressed : MouseButton → Bool)
    (camera : OrbitCamera) : List CameraEvents :=
  if camera.enabled then
    (if pressed camera.rotate_button then [CameraEvents.Orbit delta] else []) ++
      (if pressed camera.pan_button then [CameraEvents.Pan delta] else [])
  else []

/-- Body of the camera loop in `emit_motion_events`: append the events
the held buttons of this camera call for to the accumulated writer list. -/
def motion_send_step (delta : Vec2) (pressed : MouseButton → Bool)
    (acc : List CameraEvents) (camera : OrbitCamera) : List CameraEvents :=
  if camera.enabled then
    let acc1 := if pressed camera.rotate_button
      then acc ++ [CameraEvents.Orbit delta] else acc
    if pressed camera.pan_button then acc1 ++ [CameraEvents.Pan delta] else acc1
  else acc

/-- System `emit_motion_events`: accumulate the mouse-motion deltas of the frame,
then loop over the cameras sending `Orbit`/`Pan` events into the writer
(modelled as an accumulating list). -/
def emit_motion_events (motions : List Vec2) (pressed : MouseButton → Bool)
    (cameras : List OrbitCamera) : List CameraEvents :=
  let delta := motions.foldl (fun acc e => acc.add e) Vec2.ZERO
  cameras.foldl (motion_send_step delta pressed) []

/-- One iteration of the event loop in `mouse_motion_system`: `Orbit`
updates θ and clamps ϕ, `Pan` moves the origin along the current
current right/up directions, other events are ignored. -/
def motion_event_step (dt : ℝ) (transform : Transform) (camera : OrbitCamera)
    (event : CameraEvents) : OrbitCamera :=
  match event with
  | CameraEvents.Orbit delta =>
      let θ2 := camera.θ - delta.x * camera.rotate_sensitivity * dt
      let ϕ2 := camera.ϕ - delta.y * camera.rotate_sensitivity * dt
      { camera with θ := θ2, ϕ := min (max ϕ2 camera.ϕ_range.1) camera.ϕ_range.2 }
  | CameraEvents.Pan delta =>
      let right_dir := transform.rotation.mulVec3 (Vec3.neg Vec3.X)
      let up_dir := transform.rotation.mulVec3 Vec3.Y
      let pan_vector :=
        (((right_dir.smul delta.x).add (up_dir.smul delta.y)).smul
            camera.pan_sensitivity).smul dt
      { camera with origin := camera.origin.add pan_vector }
  | CameraEvents.Zoom _ => camera

/-- System `mouse_motion_system` for one camera: skip a disabled camera,
otherwise fold the frame events over the pose. -/
def mouse_motion_system (dt : ℝ) (transform : Transform)
    (events : List CameraEvents) (camera : OrbitCamera) : OrbitCamera :=
  if camera.enabled then events.foldl (motion_event_step dt transform) camera
  else camera

/-- Scroll-unit conversion factor: a line counts at face value, a pixel
is scaled by LINE_TO_PIXEL_RATIO. -/
def scroll_factor (unit : MouseScrollUnit) : ℝ :=
  match unit with
  | MouseScrollUnit.Line => 1
  | MouseScrollUnit.Pixel => LINE_TO_PIXEL_RATIO

/-- Accumulated scroll total of `emit_zoom_events`. -/
def scroll_total (wheel : List MouseWheelEvent) : ℝ :=
  wheel.foldl (fun total e => total + e.y * scroll_factor e.unit) 0

/-- Body of the camera loop in `emit_zoom_events`. -/
def zoom_send_step (total : ℝ) (acc : List CameraEvents)
    (camera : OrbitCamera) : List CameraEvents :=
  if camera.enabled then acc ++ [CameraEvents.Zoom total] else acc

/-- System `emit_zoom_events`: if the accumulated total is non-zero, send one
`Zoom(total)` per enabled camera. -/
def emit_zoom_events (wheel : List MouseWheelEvent)
    (cameras : List OrbitCamera) : List CameraEvents :=
  let total := scroll_total wheel
  if total ≠ 0 then cameras.foldl (zoom_send_step total) []
  else []

/-- One iteration of the event loop in `zoom_system`: an enabled camera
multiplies ρ by `zoom_sensitivity.powf(distance)` on a `Zoom` event. -/
def zoom_event_step (camera : OrbitCamera) (event : CameraEvents) : OrbitCamera :=
  if camera.enabled then
    match event with
    | CameraEvents.Zoom distance =>
        { camera with ρ := camera.ρ * camera.zoom_sensitivity ^ distance }
    | _ => camera
  else camera

/-- System `zoom_system` for one camera: fold the frame events over the pose. -/
def zoom_system (events : List CameraEvents) (camera : OrbitCamera) : OrbitCamera :=
  events.foldl zoom_event_step camera

/-- One frame tick for a single camera: motion application, then zoom
application, then transform derivation (gated on the changed flag). -/
def tick (dt : ℝ) (events : List CameraEvents) (changed : Bool)
    (camera : OrbitCamera) (transform : Transform) : OrbitCamera × Transform :=
  let cam1 := mouse_motion_system dt transform events camera
  let cam2 := zoom_system events cam1
  (cam2, update_transform_system changed cam2 transform)

/-- Equality of all configuration fields of two cameras (the three
ranges, the three sensitivities, the two buttons, the enabled flag). -/
def sameConfig (a b : OrbitCamera) : Prop :=
  a.θ_range = b.θ_range ∧ a.ϕ_range = b.ϕ_range ∧ a.ρ_range = b.ρ_range ∧
    a.rotate_sensitivity = b.rotate_sensitivity ∧
    a.pan_sensitivity = b.pan_sensitivity ∧
    a.zoom_sensitivity = b.zoom_sensitivity ∧
    a.rotate_button = b.rotate_button ∧ a.pan_button = b.pan_button ∧
    a.enabled = b.enabled

/-- Identity transform used as a concrete fixture. -/
def trW : Transform := { translation := Vec3.ZERO, rotation := ⟨0, 0, 0, 1⟩ }

/-- Concrete enabled camera used as a fixture in closed instances. -/
def camW : OrbitCamera :=
  { origin := Vec3.ZERO
    θ := 1.5
    ϕ := 1
    ρ := 5
    θ_range := (1, 2)
    ϕ_range := (0, 2)
    ρ_range := (1, 10)
    rotate_sensitivity := 1
    pan_sensitivity := 1
    zoom_sensitivity := 0.8
    rotate_button := MouseButton.Left
    pan_button := MouseButton.Right
    enabled := true }

/-- Disabled variant of the fixture camera. -/
def camDis : OrbitCamera := { camW with enabled := false }

/-- Fixture camera in the pose of the end-to-end spec example:
ρ = 5, θ = -π/2, ϕ = π/2. -/
def camC3 : OrbitCamera := { camW with θ := -(Real.pi / 2), ϕ := Real.pi / 2 }

theorem sameConfig_refl (a : OrbitCamera) : sameConfig a a :=
  ⟨rfl, rfl, rfl, rfl, rfl, rfl, rfl, rfl, rfl⟩

theorem sameConfig_trans {a b c : OrbitCamera} (h1 : sameConfig a b)
    (h2 : sameConfig b c) : sameConfig a c := by
  obtain ⟨e1, e2, e3, e4, e5, e6, e7, e8, e9⟩ := h1
  obtain ⟨f1, f2, f3, f4, f5, f6, f7, f8, f9⟩ := h2
  exact ⟨e1.trans f1, e2.trans f2, e3.trans f3, e4.trans f4, e5.trans f5,
    e6.trans f6, e7.trans f7, e8.trans f8, e9.trans f9⟩

theorem motion_event_step_sameConfig (dt : ℝ) (tr : Transform)
    (cam : OrbitCamera) (e : CameraEvents) :
    sameConfig (motion_event_step dt tr cam e) cam := by
  cases e <;> exact ⟨rfl, rfl, rfl, rfl, rfl, rfl, rfl, rfl, rfl⟩

theorem zoom_event_step_sameConfig (cam : OrbitCamera) (e : CameraEvents) :
    sameConfig (zoom_event_step cam e) cam := by
  unfold zoom_event_step
  split
  · cases e
    · exact sameConfig_refl cam
    · exact sameConfig_refl cam
    · exact ⟨rfl, rfl, rfl, rfl, rfl, rfl, rfl, rfl, rfl⟩
  · exact sameConfig_refl cam

theorem foldl_motion_sameConfig (dt : ℝ) (tr : Transform) :
    ∀ (events : List CameraEvents) (cam : OrbitCamera),
      sameConfig (events.foldl (motion_event_step dt tr) cam) cam
  | [], cam => sameConfig_refl cam
  | e :: es, cam =>
      sameConfig_trans (foldl_motion_sameConfig dt tr es (motion_event_step dt tr cam e))
        (motion_event_step_sameConfig dt tr cam e)

theorem mouse_motion_system_sameConfig (dt : ℝ) (tr : Transform)
    (events : List CameraEvents) (cam : OrbitCamera) :
    sameConfig (mouse_motion_system dt tr events cam) cam := by
  unfold mouse_motion_system
  split
  · exact foldl_motion_sameConfig dt tr events cam
  · exact sameConfig_refl cam

theorem zoom_system_sameConfig :
    ∀ (events : List CameraEvents) (cam : OrbitCamera),
      sameConfig (zoom_system events cam) cam
  | [], cam => sameConfig_refl cam
  | e :: es, cam =>
      sameConfig_trans (zoom_system_sameConfig es (zoom_event_step cam e))
        (zoom_event_step_sameConfig cam e)

theorem motion_event_step_ϕ_mem (dt : ℝ) (tr : Transform) (cam : OrbitCamera)
    (hr : cam.ϕ_range.1 ≤ cam.ϕ_range.2) (d : Vec2) :
    cam.ϕ_range.1 ≤ (motion_event_step dt tr cam (CameraEvents.Orbit d)).ϕ ∧
      (motion_event_step dt tr cam (CameraEvents.Orbit d)).ϕ ≤ cam.ϕ_range.2 := by
  constructor
  · exact le_min (le_max_right _ _) hr
  · exact min_le_right _ _

theorem motion_event_step_ϕ_mem_of_mem (dt : ℝ) (tr : Transform)
    (cam : OrbitCamera) (e : CameraEvents)
    (hr : cam.ϕ_range.1 ≤ cam.ϕ_range.2)
    (h1 : cam.ϕ_range.1 ≤ cam.ϕ) (h2 : cam.ϕ ≤ cam.ϕ_range.2) :
    cam.ϕ_range.1 ≤ (motion_event_step dt tr cam e).ϕ ∧
      (motion_event_step dt tr cam e).ϕ ≤ cam.ϕ_range.2 := by
  cases e
  · exact ⟨h1, h2⟩
  · exact motion_event_step_ϕ_mem dt tr cam hr _
  · exact ⟨h1, h2⟩

theorem foldl_motion_ϕ_mem (dt : ℝ) (tr : Transform) :
    ∀ (events : List CameraEvents) (cam : OrbitCamera),
      cam.ϕ_range.1 ≤ cam.ϕ_range.2 → cam.ϕ_range.1 ≤ cam.ϕ →
      cam.ϕ ≤ cam.ϕ_range.2 →
      cam.ϕ_range.1 ≤ (events.foldl (motion_event_step dt tr) cam).ϕ ∧
        (events.foldl (motion_event_step dt tr) cam).ϕ ≤ cam.ϕ_range.2
  | [], _, _, h1, h2 => ⟨h1, h2⟩
  | e :: es, cam, hr, h1, h2 => by
      have hrng : (motion_event_step dt tr cam e).ϕ_range = cam.ϕ_range :=
        (motion_event_step_sameConfig dt tr cam e).2.1
      have hmem := motion_event_step_ϕ_mem_of_mem dt tr cam e hr h1 h2
      have ih := foldl_motion_ϕ_mem dt tr es (motion_event_step dt tr cam e)
        (by rw [hrng]; exact hr) (by rw [hrng]; exact hmem.1)
        (by rw [hrng]; exact hmem.2)
      rw [hrng] at ih
      rw [List.foldl_cons]
      exact ih

theorem zoom_event_step_ϕ (cam : OrbitCamera) (e : CameraEvents) :
    (zoom_event_step cam e).ϕ = cam.ϕ := by
  unfold zoom_event_step
  split
  · cases e <;> rfl
  · rfl

theorem zoom_system_ϕ :
    ∀ (events : List CameraEvents) (cam : OrbitCamera),
      (zoom_system events cam).ϕ = cam.ϕ
  | [], _ => rfl
  | e :: es, cam =>
      (zoom_system_ϕ es (zoom_event_step cam e)).trans (zoom_event_step_ϕ cam e)

/-- Claim C1: for an enabled camera, an `Orbit(delta)` intent with frame
time `dt` sets θ to `θ - delta.x * rotate_sensitivity * dt`, unclamped,
and sets ϕ to the clamp of `ϕ - delta.y * rotate_sensitivity * dt` into
`[ϕ_min, ϕ_max]`; after any non-empty sequence of `Orbit` intents, ϕ
lies in `[ϕ_min, ϕ_max]`, while θ can be driven to any real value
(hence to any value outside `[θ_min, θ_max]`) by a single intent. -/
theorem orbit_intent_spec (cam : OrbitCamera) (tr : Transform) (dt : ℝ) (d : Vec2)
    (hen : cam.enabled = true) (hr : cam.ϕ_range.1 ≤ cam.ϕ_range.2) :
    (mouse_motion_system dt tr [CameraEvents.Orbit d] cam).θ =
      cam.θ - d.x * cam.rotate_sensitivity * dt ∧
    (mouse_motion_system dt tr [CameraEvents.Orbit d] cam).ϕ =
      min (max (cam.ϕ - d.y * cam.rotate_sensitivity * dt) cam.ϕ_range.1)
        cam.ϕ_range.2 ∧
    (∀ ds : List Vec2, ds ≠ [] →
      cam.ϕ_range.1 ≤ (mouse_motion_system dt tr (ds.map CameraEvents.Orbit) cam).ϕ ∧
        (mouse_motion_system dt tr (ds.map CameraEvents.Orbit) cam).ϕ ≤ cam.ϕ_range.2) ∧
    (∀ t : ℝ, cam.rotate_sensitivity * dt ≠ 0 →
      ∃ e : Vec2, (mouse_motion_system dt tr [CameraEvents.Orbit e] cam).θ = t) := by
  refine ⟨?_, ?_, ?_, ?_⟩
  · simp [mouse_motion_system, hen, motion_event_step]
  · simp [mouse_motion_system, hen, motion_event_step]
  · intro ds hds
    cases ds with
    | nil => exact absurd rfl hds
    | cons d0 ds2 =>
        have hrng : (motion_event_step dt tr cam (CameraEvents.Orbit d0)).ϕ_range =
            cam.ϕ_range :=
          (motion_event_step_sameConfig dt tr cam (CameraEvents.Orbit d0)).2.1
        have hstep := motion_event_step_ϕ_mem dt tr cam hr d0
        have ih := foldl_motion_ϕ_mem dt tr (ds2.map CameraEvents.Orbit)
          (motion_event_step dt tr cam (CameraEvents.Orbit d0))
          (by rw [hrng]; exact hr) (by rw [hrng]; exact hstep.1)
          (by rw [hrng]; exact hstep.2)
        rw [hrng] at ih
        simpa [mouse_motion_system, hen] using ih
  · intro t hne
    refine ⟨⟨(cam.θ - t) / (cam.rotate_sensitivity * dt), 0⟩, ?_⟩
    simp [mouse_motion_system, hen, motion_event_step]
    field_simp
    ring

/-- Closed instance of Claim C1 at the fixture camera. -/
theorem orbit_intent_spec_witness :
    camW.enabled = true ∧ camW.ϕ_range.1 ≤ camW.ϕ_range.2 ∧
      (mouse_motion_system 1 trW [CameraEvents.Orbit ⟨1, 0⟩] camW).θ =
        camW.θ - (1 : ℝ) * camW.rotate_sensitivity * 1 :=
  ⟨rfl, by norm_num [camW],
    (orbit_intent_spec camW trW 1 ⟨1, 0⟩ rfl (by norm_num [camW])).1⟩

/-- Claim C2 fails on the code: the polar angle is not clamped, so one
`Orbit` update leaves θ below its configured minimum at this concrete
camera (θ = 1.5, θ_range = [1, 2], delta = (1, 0), sensitivities 1,
dt = 1 gives θ = 0.5). -/
theorem clamp_invariant_counterexample :
    ¬ ((mouse_motion_system 1 trW [CameraEvents.Orbit ⟨1, 0⟩] camW).θ_range.1 ≤
        (mouse_motion_system 1 trW [CameraEvents.Orbit ⟨1, 0⟩] camW).θ) := by
  simp [mouse_motion_system, motion_event_step, camW]
  norm_num

/-- Claim C2 (amended): after any update (motion application followed by
zoom application over arbitrary event lists), the azimuthal angle ϕ lies
in `[ϕ_min, ϕ_max]` provided it started there and the range is
non-degenerate, and the range itself is unchanged; θ and ρ are not
clamped by any update. -/
theorem azimuth_clamp_invariant (cam : OrbitCamera) (tr : Transform) (dt : ℝ)
    (events1 events2 : List CameraEvents)
    (hr : cam.ϕ_range.1 ≤ cam.ϕ_range.2)
    (h1 : cam.ϕ_range.1 ≤ cam.ϕ) (h2 : cam.ϕ ≤ cam.ϕ_range.2) :
    cam.ϕ_range.1 ≤ (zoom_system events2 (mouse_motion_system dt tr events1 cam)).ϕ ∧
      (zoom_system events2 (mouse_motion_system dt tr events1 cam)).ϕ ≤ cam.ϕ_range.2 ∧
      (zoom_system events2 (mouse_motion_system dt tr events1 cam)).ϕ_range =
        cam.ϕ_range := by
  have hmid : cam.ϕ_range.1 ≤ (mouse_motion_system dt tr events1 cam).ϕ ∧
      (mouse_motion_system dt tr events1 cam).ϕ ≤ cam.ϕ_range.2 := by
    unfold mouse_motion_system
    split
    · exact foldl_motion_ϕ_mem dt tr events1 cam hr h1 h2
    · exact ⟨h1, h2⟩
  have hϕ : (zoom_system events2 (mouse_motion_system dt tr events1 cam)).ϕ =
      (mouse_motion_system dt tr events1 cam).ϕ :=
    zoom_system_ϕ events2 (mouse_motion_system dt tr events1 cam)
  have hrng : (zoom_system events2 (mouse_motion_system dt tr events1 cam)).ϕ_range =
      cam.ϕ_range :=
    ((zoom_system_sameConfig events2 (mouse_motion_system dt tr events1 cam)).2.1).trans
      ((mouse_motion_system_sameConfig dt tr events1 cam).2.1)
  exact ⟨by rw [hϕ]; exact hmid.1, by rw [hϕ]; exact hmid.2, hrng⟩

/-- Closed instance of the amended Claim C2 at the fixture camera. -/
theorem azimuth_clamp_invariant_witness :
    camW.ϕ_range.1 ≤ camW.ϕ_range.2 ∧ camW.ϕ_range.1 ≤ camW.ϕ ∧
      camW.ϕ ≤ camW.ϕ_range.2 ∧
      camW.ϕ_range.1 ≤ (zoom_system [CameraEvents.Zoom 1]
        (mouse_motion_system 1 trW [CameraEvents.Orbit ⟨1, 1⟩] camW)).ϕ ∧
      (zoom_system [CameraEvents.Zoom 1]
        (mouse_motion_system 1 trW [CameraEvents.Orbit ⟨1, 1⟩] camW)).ϕ ≤
        camW.ϕ_range.2 := by
  have h := azimuth_clamp_invariant camW trW 1 [CameraEvents.Orbit ⟨1, 1⟩]
    [CameraEvents.Zoom 1] (by norm_num [camW]) (by norm_num [camW])
    (by norm_num [camW])
  exact ⟨by norm_num [camW], by norm_num [camW], by norm_num [camW], h.1, h.2.1⟩

theorem vec3_eq {a b : Vec3} (hx : a.x = b.x) (hy : a.y = b.y)
    (hz : a.z = b.z) : a = b := by
  cases a; cases b; simp_all

/-- Claim C4: for an enabled camera, a `Zoom(s)` intent multiplies ρ by
`zoom_sensitivity` raised to the power `s`; no clamping into ρ_range
happens afterwards (the result is the bare product for every camera,
and the range is untouched), and the other pose fields are unchanged. -/
theorem zoom_intent_spec (cam : OrbitCamera) (s : ℝ) (hen : cam.enabled = true) :
    (zoom_system [CameraEvents.Zoom s] cam).ρ =
      cam.ρ * cam.zoom_sensitivity ^ s ∧
    (zoom_system [CameraEvents.Zoom s] cam).origin = cam.origin ∧
    (zoom_system [CameraEvents.Zoom s] cam).θ = cam.θ ∧
    (zoom_system [CameraEvents.Zoom s] cam).ϕ = cam.ϕ ∧
    (zoom_system [CameraEvents.Zoom s] cam).ρ_range = cam.ρ_range := by
  simp [zoom_system, zoom_event_step, hen]

/-- Closed instance of Claim C4: zoom_sensitivity 0.8, ρ = 5, one
`Zoom(1.0)` gives ρ = 4. -/
theorem zoom_intent_spec_witness :
    camW.enabled = true ∧ camW.zoom_sensitivity = 0.8 ∧ camW.ρ = 5 ∧
      (zoom_system [CameraEvents.Zoom 1] camW).ρ = 4 := by
  refine ⟨rfl, rfl, rfl, ?_⟩
  have h := (zoom_intent_spec camW 1 rfl).1
  rw [h, Real.rpow_one]
  norm_num [camW]

/-- Claim C5: with zoom_sensitivity 0.8 and ρ > 0, a `Zoom(s)` intent
with s > 0 strictly shrinks ρ and with s < 0 strictly grows it. -/
theorem zoom_monotone_spec (cam : OrbitCamera) (s : ℝ) (hen : cam.enabled = true)
    (hzs : cam.zoom_sensitivity = 0.8) (hρ : 0 < cam.ρ) :
    (0 < s → (zoom_system [CameraEvents.Zoom s] cam).ρ < cam.ρ) ∧
      (s < 0 → cam.ρ < (zoom_system [CameraEvents.Zoom s] cam).ρ) := by
  have hr := (zoom_intent_spec cam s hen).1
  rw [hr, hzs]
  constructor
  · intro hs
    have h1 : (0.8 : ℝ) ^ s < 1 := Real.rpow_lt_one (by norm_num) (by norm_num) hs
    exact mul_lt_of_lt_one_right hρ h1
  · intro hs
    have h1 : (1 : ℝ) < (0.8 : ℝ) ^ s :=
      Real.one_lt_rpow_of_pos_of_lt_one_of_neg (by norm_num) (by norm_num) hs
    exact lt_mul_of_one_lt_right hρ h1

/-- Closed instance of Claim C5 at s = 1 and s = -1. -/
theorem zoom_monotone_spec_witness :
    camW.enabled = true ∧ camW.zoom_sensitivity = 0.8 ∧ 0 < camW.ρ ∧
      (zoom_system [CameraEvents.Zoom 1] camW).ρ < camW.ρ ∧
      camW.ρ < (zoom_system [CameraEvents.Zoom (-1)] camW).ρ := by
  refine ⟨rfl, rfl, by norm_num [camW], ?_, ?_⟩
  · exact (zoom_monotone_spec camW 1 rfl rfl (by norm_num [camW])).1 (by norm_num)
  · exact (zoom_monotone_spec camW (-1) rfl rfl (by norm_num [camW])).2 (by norm_num)

theorem zoom_system_disabled :
    ∀ (events : List CameraEvents) (cam : OrbitCamera),
      cam.enabled = false → zoom_system events cam = cam
  | [], _, _ => rfl
  | e :: es, cam, h => by
      have hstep : zoom_event_step cam e = cam := by
        unfold zoom_event_step
        simp [h]
      show zoom_system es (zoom_event_step cam e) = cam
      rw [hstep]
      exact zoom_system_disabled es cam h

/-- Claim C6: a disabled camera is left exactly as it was by a whole
tick, for every event list, frame time and changed flag: pose untouched
and derived transform frozen. -/
theorem disabled_camera_frozen (cam : OrbitCamera) (tr : Transform) (dt : ℝ)
    (events : List CameraEvents) (changed : Bool) (hdis : cam.enabled = false) :
    tick dt events changed cam tr = (cam, tr) := by
  have h1 : mouse_motion_system dt tr events cam = cam := by
    unfold mouse_motion_system
    simp [hdis]
  have h3 : update_transform_system changed cam tr = tr := by
    unfold update_transform_system update_transform
    simp [hdis]
  unfold tick
  show (zoom_system events (mouse_motion_system dt tr events cam),
      update_transform_system changed
        (zoom_system events (mouse_motion_system dt tr events cam)) tr) =
    (cam, tr)
  rw [h1, zoom_system_disabled events cam hdis, h3]

/-- Closed instance of Claim C6 at the disabled fixture camera with one
intent of each kind. -/
theorem disabled_camera_frozen_witness :
    camDis.enabled = false ∧
      tick 1 [CameraEvents.Orbit ⟨1, 2⟩, CameraEvents.Pan ⟨3, 4⟩,
        CameraEvents.Zoom 5] true camDis trW = (camDis, trW) :=
  ⟨rfl, disabled_camera_frozen camDis trW 1 _ true rfl⟩

/-- Claim C9: for an enabled camera, a `Pan(delta)` intent adds
`(delta.x * right + delta.y * up) * pan_sensitivity * dt` to the pivot,
with right the transform rotation applied to the negative X axis and up
the rotation applied to the Y axis; a zero delta leaves the pivot
unchanged for every orientation. -/
theorem pan_intent_spec (cam : OrbitCamera) (tr : Transform) (dt : ℝ) (d : Vec2)
    (hen : cam.enabled = true) :
    (mouse_motion_system dt tr [CameraEvents.Pan d] cam).origin =
      cam.origin.add
        ((((tr.rotation.mulVec3 (Vec3.neg Vec3.X)).smul d.x).add
            ((tr.rotation.mulVec3 Vec3.Y).smul d.y)).smul
          (cam.pan_sensitivity * dt)) ∧
    (mouse_motion_system dt tr [CameraEvents.Pan ⟨0, 0⟩] cam).origin =
      cam.origin := by
  constructor
  · simp [mouse_motion_system, hen, motion_event_step]
    apply vec3_eq <;> simp [Vec3.add, Vec3.smul] <;> ring
  · simp [mouse_motion_system, hen, motion_event_step]
    apply vec3_eq <;> simp [Vec3.add, Vec3.smul]

/-- Closed instance of Claim C9 at the fixture camera. -/
theorem pan_intent_spec_witness :
    camW.enabled = true ∧
      (mouse_motion_system 1 trW [CameraEvents.Pan ⟨0, 0⟩] camW).origin =
        camW.origin :=
  ⟨rfl, (pan_intent_spec camW trW 1 ⟨0, 0⟩ rfl).2⟩

/-- Claim C10: each intent handler touches only its designated pose
fields — `Orbit` only θ and ϕ, `Pan` only the pivot, `Zoom` only ρ —
and neither application system ever modifies a configuration field. -/
theorem intent_field_isolation (cam : OrbitCamera) (tr : Transform) (dt : ℝ)
    (d : Vec2) (s : ℝ) (events : List CameraEvents) :
    ((motion_event_step dt tr cam (CameraEvents.Orbit d)).origin = cam.origin ∧
      (motion_event_step dt tr cam (CameraEvents.Orbit d)).ρ = cam.ρ ∧
      sameConfig (motion_event_step dt tr cam (CameraEvents.Orbit d)) cam) ∧
    ((motion_event_step dt tr cam (CameraEvents.Pan d)).θ = cam.θ ∧
      (motion_event_step dt tr cam (CameraEvents.Pan d)).ϕ = cam.ϕ ∧
      (motion_event_step dt tr cam (CameraEvents.Pan d)).ρ = cam.ρ ∧
      sameConfig (motion_event_step dt tr cam (CameraEvents.Pan d)) cam) ∧
    ((zoom_event_step cam (CameraEvents.Zoom s)).origin = cam.origin ∧
      (zoom_event_step cam (CameraEvents.Zoom s)).θ = cam.θ ∧
      (zoom_event_step cam (CameraEvents.Zoom s)).ϕ = cam.ϕ ∧
      sameConfig (zoom_event_step cam (CameraEvents.Zoom s)) cam) ∧
    sameConfig (mouse_motion_system dt tr events cam) cam ∧
    sameConfig (zoom_system events cam) cam := by
  refine ⟨⟨rfl, rfl, motion_event_step_sameConfig dt tr cam _⟩,
    ⟨rfl, rfl, rfl, motion_event_step_sameConfig dt tr cam _⟩,
    ⟨?_, ?_, ?_, zoom_event_step_sameConfig cam _⟩,
    mouse_motion_system_sameConfig dt tr events cam,
    zoom_system_sameConfig events cam⟩
  · unfold zoom_event_step
    split <;> rfl
  · unfold zoom_event_step
    split <;> rfl
  · unfold zoom_event_step
    split <;> rfl

theorem motion_send_step_eq (delta : Vec2) (pressed : MouseButton → Bool)
    (acc : List CameraEvents) (cam : OrbitCamera) :
    motion_send_step delta pressed acc cam =
      acc ++ motion_events_for delta pressed cam := by
  unfold motion_send_step motion_events_for
  cases h1 : cam.enabled
  · simp [h1]
  · cases h2 : pressed cam.rotate_button <;> cases h3 : pressed cam.pan_button <;>
      simp [h2, h3]

theorem foldl_motion_send (delta : Vec2) (pressed : MouseButton → Bool) :
    ∀ (cams : List OrbitCamera) (acc : List CameraEvents),
      cams.foldl (motion_send_step delta pressed) acc =
        acc ++ cams.flatMap (motion_events_for delta pressed)
  | [], acc => by simp
  | cam :: cams, acc => by
      rw [List.foldl_cons, foldl_motion_send delta pressed cams,
        motion_send_step_eq, List.flatMap_cons, List.append_assoc]

/-- Claim C7: each frame, the aggregator sends per enabled camera an
`Orbit` event exactly when the rotate button is held and a `Pan` event
exactly when the pan button is held — independent checks carrying the
same accumulated delta, both firing together when both buttons are held
— and a disabled camera gets nothing; the whole emission is the
concatenation of the per-camera emissions. -/
theorem motion_emission_spec (motions : List Vec2) (pressed : MouseButton → Bool)
    (cameras : List OrbitCamera) (cam : OrbitCamera) :
    emit_motion_events motions pressed cameras =
      cameras.flatMap
        (motion_events_for (motions.foldl (fun acc e => acc.add e) Vec2.ZERO)
          pressed) ∧
    (cam.enabled = true → ∀ delta : Vec2,
      (CameraEvents.Orbit delta ∈ motion_events_for delta pressed cam ↔
        pressed cam.rotate_button = true) ∧
      (CameraEvents.Pan delta ∈ motion_events_for delta pressed cam ↔
        pressed cam.pan_button = true) ∧
      (pressed cam.rotate_button = true → pressed cam.pan_button = true →
        motion_events_for delta pressed cam =
          [CameraEvents.Orbit delta, CameraEvents.Pan delta])) ∧
    (cam.enabled = false → ∀ delta : Vec2,
      motion_events_for delta pressed cam = []) := by
  refine ⟨?_, ?_, ?_⟩
  · unfold emit_motion_events
    rw [foldl_motion_send]
    simp
  · intro hen delta
    unfold motion_events_for
    cases h2 : pressed cam.rotate_button <;> cases h3 : pressed cam.pan_button <;>
      simp [hen, h2, h3]
  · intro hdis delta
    unfold motion_events_for
    simp [hdis]

/-- Closed instance of Claim C7. -/
theorem motion_emission_spec_witness :
    camW.enabled = true ∧
      (CameraEvents.Orbit ⟨3, 4⟩ ∈
          motion_events_for ⟨3, 4⟩ (fun b => b == MouseButton.Left) camW ↔
        (fun b => b == MouseButton.Left) camW.rotate_button = true) ∧
      camDis.enabled = false ∧
      motion_events_for ⟨3, 4⟩ (fun b => b == MouseButton.Left) camDis = [] := by
  refine ⟨rfl, ?_, rfl, ?_⟩
  · exact ((motion_emission_spec [] (fun b => b == MouseButton.Left) [] camW).2.1
      rfl ⟨3, 4⟩).1
  · exact (motion_emission_spec [] (fun b => b == MouseButton.Left) [] camDis).2.2
      rfl ⟨3, 4⟩

theorem zoom_send_step_eq (total : ℝ) (acc : List CameraEvents)
    (cam : OrbitCamera) :
    zoom_send_step total acc cam =
      acc ++ (if cam.enabled then [CameraEvents.Zoom total] else []) := by
  unfold zoom_send_step
  cases h : cam.enabled <;> simp [h]

theorem foldl_zoom_send (total : ℝ) :
    ∀ (cams : List OrbitCamera) (acc : List CameraEvents),
      cams.foldl (zoom_send_step total) acc =
        acc ++ cams.flatMap
          (fun c => if c.enabled then [CameraEvents.Zoom total] else [])
  | [], acc => by simp
  | cam :: cams, acc => by
      rw [List.foldl_cons, foldl_zoom_send total cams, zoom_send_step_eq,
        List.flatMap_cons, List.append_assoc]

/-- Claim C8: the accumulated scroll total counts a line event at face
value and a pixel event at 0.1 of its magnitude (so pixel magnitude 10
equals line magnitude 1), and one `Zoom(total)` is sent per enabled
camera exactly when the total is non-zero. -/
theorem zoom_emission_spec (wheel : List MouseWheelEvent)
    (cameras : List OrbitCamera) :
    scroll_total [⟨MouseScrollUnit.Pixel, 10⟩] =
      scroll_total [⟨MouseScrollUnit.Line, 1⟩] ∧
    emit_zoom_events wheel cameras =
      (if scroll_total wheel = 0 then []
        else cameras.flatMap
          (fun c => if c.enabled then [CameraEvents.Zoom (scroll_total wheel)]
            else [])) ∧
    (CameraEvents.Zoom (scroll_total wheel) ∈ emit_zoom_events wheel cameras ↔
      scroll_total wheel ≠ 0 ∧ ∃ c ∈ cameras, c.enabled = true) := by
  have hemit : emit_zoom_events wheel cameras =
      (if scroll_total wheel = 0 then []
        else cameras.flatMap
          (fun c => if c.enabled then [CameraEvents.Zoom (scroll_total wheel)]
            else [])) := by
    unfold emit_zoom_events
    by_cases h : scroll_total wheel = 0
    · simp [h]
    · rw [if_neg h]
      show (if scroll_total wheel ≠ 0 then
          List.foldl (zoom_send_step (scroll_total wheel)) [] cameras else []) =
        cameras.flatMap
          (fun c => if c.enabled then [CameraEvents.Zoom (scroll_total wheel)]
            else [])
      rw [if_pos h, foldl_zoom_send]
      simp
  refine ⟨?_, hemit, ?_⟩
  · simp [scroll_total, scroll_factor, LINE_TO_PIXEL_RATIO]
    norm_num
  · rw [hemit]
    by_cases h : scroll_total wheel = 0
    · simp [h]
    · rw [if_neg h]
      simp only [List.mem_flatMap]
      constructor
      · rintro ⟨c, hc, hmem⟩
        refine ⟨h, c, hc, ?_⟩
        cases hen : c.enabled
        · simp [hen] at hmem
        · rfl
      · rintro ⟨-, c, hc, hen⟩
        exact ⟨c, hc, by simp [hen]⟩

/-- Closed instance of Claim C8: one pixel event of magnitude 10 yields
a non-zero total equal to a line event of magnitude 1 and a `Zoom` is
emitted for the enabled fixture camera. -/
theorem zoom_emission_spec_witness :
    scroll_total [⟨MouseScrollUnit.Pixel, 10⟩] =
        scroll_total [⟨MouseScrollUnit.Line, 1⟩] ∧
      scroll_total [⟨MouseScrollUnit.Pixel, 10⟩] ≠ 0 ∧
      CameraEvents.Zoom (scroll_total [⟨MouseScrollUnit.Pixel, 10⟩]) ∈
        emit_zoom_events [⟨MouseScrollUnit.Pixel, 10⟩] [camW] := by
  have h := zoom_emission_spec [⟨MouseScrollUnit.Pixel, 10⟩] [camW]
  have hne : scroll_total [⟨MouseScrollUnit.Pixel, 10⟩] ≠ 0 := by
    simp [scroll_total, scroll_factor, LINE_TO_PIXEL_RATIO]
    norm_num
  exact ⟨h.1, hne, h.2.2.mpr ⟨hne, camW, by simp, rfl⟩⟩

theorem dot_smul_self (u : Vec3) (k : ℝ) :
    (u.smul k).dot (u.smul k) = k ^ 2 * u.dot u := by
  simp [Vec3.smul, Vec3.dot]
  ring

theorem mulVec3_dot_self (q : Quat) (v : Vec3) :
    (q.mulVec3 v).dot (q.mulVec3 v) = q.normSq ^ 2 * v.dot v := by
  simp [Quat.mulVec3, Quat.normSq, Vec3.dot, Vec3.smul, Vec3.add, Vec3.cross]
  ring

theorem quat_normSq_mul (a b : Quat) :
    (a.mul b).normSq = a.normSq * b.normSq := by
  simp [Quat.mul, Quat.normSq]
  ring

theorem normSq_fromAxisAngle_Y (t : ℝ) :
    (Quat.fromAxisAngle Vec3.Y t).normSq = 1 := by
  simp [Quat.fromAxisAngle, Quat.normSq, Vec3.Y]
  linear_combination Real.sin_sq_add_cos_sq (t * 0.5)

theorem normSq_fromAxisAngle_negX (t : ℝ) :
    (Quat.fromAxisAngle (Vec3.neg Vec3.X) t).normSq = 1 := by
  simp [Quat.fromAxisAngle, Quat.normSq, Vec3.neg, Vec3.X]
  linear_combination Real.sin_sq_add_cos_sq (t * 0.5)

theorem dot_Y_Y : Vec3.Y.dot Vec3.Y = 1 := by
  norm_num [Vec3.dot, Vec3.Y]

/-- Claim C3: for an enabled camera whose pose changed, the derived
derived position is pivot + ρ · (the rotation by θ about Y composed
with the rotation by ϕ about -X, applied to the unit Y vector), its
orientation is the look-at rotation from that position toward the pivot
with Y up, and the distance from the derived position to the pivot
equals ρ for every θ and ϕ. -/
theorem transform_derivation_spec (cam : OrbitCamera) (tr : Transform)
    (hen : cam.enabled = true) (hρ : 0 ≤ cam.ρ) :
    (update_transform_system true cam tr).translation =
      ((((Quat.fromAxisAngle Vec3.Y cam.θ).mul
          (Quat.fromAxisAngle (Vec3.neg Vec3.X) cam.ϕ)).mulVec3 Vec3.Y).smul
        cam.ρ).add cam.origin ∧
    (update_transform_system true cam tr).rotation =
      (Transform.look_at
        { tr with translation := (update_transform_system true cam tr).translation }
        cam.origin Vec3.Y).rotation ∧
    Vec3.dist (update_transform_system true cam tr).translation cam.origin =
      cam.ρ := by
  have htrans : (update_transform_system true cam tr).translation =
      ((((Quat.fromAxisAngle Vec3.Y cam.θ).mul
          (Quat.fromAxisAngle (Vec3.neg Vec3.X) cam.ϕ)).mulVec3 Vec3.Y).smul
        cam.ρ).add cam.origin := by
    simp [update_transform_system, update_transform, Transform.look_at, hen]
  refine ⟨htrans, ?_, ?_⟩
  · simp [update_transform_system, update_transform, Transform.look_at, hen]
  · rw [htrans]
    unfold Vec3.dist Vec3.length
    have hsub : (((((Quat.fromAxisAngle Vec3.Y cam.θ).mul
        (Quat.fromAxisAngle (Vec3.neg Vec3.X) cam.ϕ)).mulVec3 Vec3.Y).smul
          cam.ρ).add cam.origin).sub cam.origin =
        (((Quat.fromAxisAngle Vec3.Y cam.θ).mul
          (Quat.fromAxisAngle (Vec3.neg Vec3.X) cam.ϕ)).mulVec3 Vec3.Y).smul
          cam.ρ := by
      apply vec3_eq <;> simp [Vec3.add, Vec3.sub, Vec3.smul]
    rw [hsub, dot_smul_self, mulVec3_dot_self, quat_normSq_mul,
      normSq_fromAxisAngle_Y, normSq_fromAxisAngle_negX, dot_Y_Y]
    have h1 : cam.ρ ^ 2 * ((1 * 1) ^ 2 * 1) = cam.ρ ^ 2 := by ring
    rw [h1, Real.sqrt_sq hρ]

/-- Closed instance of Claim C3 at the pose of the end-to-end spec
example (ρ = 5, θ = -π/2, ϕ = π/2): the derived position is at
distance 5 from the pivot. -/
theorem transform_derivation_spec_witness :
    camC3.enabled = true ∧ (0 : ℝ) ≤ camC3.ρ ∧
      Vec3.dist (update_transform_system true camC3 trW).translation
        camC3.origin = 5 := by
  refine ⟨rfl, by norm_num [camC3, camW], ?_⟩
  have h := (transform_derivation_spec camC3 trW rfl (by norm_num [camC3, camW])).2.2
  rw [h]
  norm_num [camC3, camW]

end Palimpsest
